import Mathlib

/-!
Verification development for the django-intro repository: a Django REST
Framework `Item` CRUD resource (exercised by `src/api/tests.py`) and the
`todos` template view (`src/django_intro/myapp/views.py`).
-/

namespace ItemService

/-- Modelled from the spec: the `Item` entity of section 3 of the spec.
The model file `api/models.py` is not present under `src/` (only its tests
are), so the data model is taken from the spec's words: `id` integer,
system-assigned; `name` string, required, non-empty; `description` string,
optional. -/
structure Item where
  id : Nat
  name : String
  description : Option String
deriving Repr, DecidableEq

/-- Modelled from the spec: the relational store backing the Item resource.
The rows persisted so far, in storage order, together with the next
system-assigned primary key. -/
structure Store where
  items : List Item
  nextId : Nat
deriving Repr, DecidableEq

/-- Response body shapes of the HTTP surface (section 6 of the spec):
an array of Items, a single Item, a field-level error map, or empty. -/
inductive Body where
  | items (xs : List Item)
  | item (x : Item)
  | fieldErrors (fields : List String)
  | empty
deriving Repr, DecidableEq

/-- An HTTP response: a status code and a body. -/
structure Response where
  status : Nat
  body : Body
deriving Repr, DecidableEq

/-- The key used in field-level error maps for the `name` field. -/
def nameField : String := "name"

/-- Modelled from the spec: `list()` returns all Items in storage order,
200 OK (`api/views.py` is absent from `src/`). -/
def listItems (s : Store) : Response × Store :=
  (⟨200, Body.items s.items⟩, s)

/-- Modelled from the spec: `create(name, description?)` validates `name`
is present and non-empty; on success persists a new Item with a freshly
assigned `id` and returns 201 Created with the full representation; on
validation failure returns 400 with field-level errors
(`api/views.py` and `api/serializers.py` are absent from `src/`). -/
def create (s : Store) (name : Option String) (descr : Option String) :
    Response × Store :=
  match name with
  | none => (⟨400, Body.fieldErrors [nameField]⟩, s)
  | some n =>
    if n = "" then (⟨400, Body.fieldErrors [nameField]⟩, s)
    else
      (⟨201, Body.item ⟨s.nextId, n, descr⟩⟩,
       ⟨s.items ++ [⟨s.nextId, n, descr⟩], s.nextId + 1⟩)

/-- Modelled from the spec: `retrieve(id)` returns 200 OK with the
representation if found, 404 Not Found otherwise. -/
def retrieve (s : Store) (i : Nat) : Response × Store :=
  match s.items.find? (fun it => it.id = i) with
  | some it => (⟨200, Body.item it⟩, s)
  | none => (⟨404, Body.empty⟩, s)

/-- Modelled from the spec: `replace(id, name, description?)` returns 404
if `id` is unknown; otherwise validates input as in create; on success
overwrites all fields of the addressed Item and returns 200 OK with the
updated representation. -/
def replace (s : Store) (i : Nat) (name : Option String)
    (descr : Option String) : Response × Store :=
  match s.items.find? (fun it => it.id = i) with
  | none => (⟨404, Body.empty⟩, s)
  | some old =>
    match name with
    | none => (⟨400, Body.fieldErrors [nameField]⟩, s)
    | some n =>
      if n = "" then (⟨400, Body.fieldErrors [nameField]⟩, s)
      else
        (⟨200, Body.item ⟨old.id, n, descr⟩⟩,
         ⟨s.items.map (fun it => if it.id = i then ⟨it.id, n, descr⟩ else it),
          s.nextId⟩)

/-- Modelled from the spec: `delete(id)` removes the Item if found and
returns 204 No Content with empty body; 404 if `id` is unknown. -/
def deleteItem (s : Store) (i : Nat) : Response × Store :=
  if s.items.any (fun it => it.id = i) then
    (⟨204, Body.empty⟩, ⟨s.items.filter (fun it => it.id ≠ i), s.nextId⟩)
  else
    (⟨404, Body.empty⟩, s)

/-- One CRUD request to the Item resource. -/
inductive Op where
  | list
  | create (name : Option String) (descr : Option String)
  | retrieve (i : Nat)
  | replace (i : Nat) (name : Option String) (descr : Option String)
  | delete (i : Nat)
deriving Repr, DecidableEq

/-- Dispatch an authenticated request to the corresponding operation. -/
def applyOp (s : Store) : Op → Response × Store
  | Op.list => listItems s
  | Op.create n d => create s n d
  | Op.retrieve i => retrieve s i
  | Op.replace i n d => replace s i n d
  | Op.delete i => deleteItem s i

/-- Modelled from the spec: all operations require an authenticated
caller; unauthenticated requests fail with 401/403 and are not performed. -/
def handle (s : Store) (op : Op) (auth : Bool) : Response × Store :=
  if auth then applyOp s op else (⟨401, Body.empty⟩, s)

/-- The empty store; primary keys start at 1 as in the relational table. -/
def initStore : Store := ⟨[], 1⟩

/-- The list of ids of the persisted Items, in storage order. -/
def ids (s : Store) : List Nat := s.items.map Item.id

/-- Well-formedness of a store: ids are pairwise distinct and every id is
below the next system-assigned key. -/
def WF (s : Store) : Prop :=
  (ids s).Nodup ∧ ∀ it ∈ s.items, it.id < s.nextId

/-- The storage states reachable from the empty store by handling
requests. -/
inductive Reachable : Store → Prop
  | init : Reachable initStore
  | step (s : Store) (op : Op) (auth : Bool) :
      Reachable s → Reachable (handle s op auth).2

/-- Create a sequence of items with the given names and descriptions. -/
def createMany (s : Store) : List (String × Option String) → Store
  | [] => s
  | p :: ps => createMany (create s (some p.1) p.2).2 ps

end ItemService

namespace MyApp

/-- Modelled from the spec: the `TodoItem` entity of the `myapp` app
(`myapp/models.py` is absent from `src/`; the spec treats the todos app as
template glue, so only an opaque record is needed by the view). -/
structure TodoItem where
  label : String
deriving Repr, DecidableEq

/-- A rendered template response: the template name and the value bound
to the context key `todos`. -/
structure TemplateResponse where
  template : String
  context_todos : List TodoItem
deriving Repr, DecidableEq

/-- The `todos` view of `src/django_intro/myapp/views.py`: fetches all
`TodoItem` records from the database state and renders `todos.html` with
the context `{"todos": items}`; the resulting database state is returned
unchanged. -/
def todos (db : List TodoItem) : TemplateResponse × List TodoItem :=
  (⟨"todos.html", db⟩, db)

end MyApp

namespace ItemService

theorem find?_id_eq_none {l : List Item} {i : Nat}
    (h : ∀ it ∈ l, it.id ≠ i) : l.find? (fun it => it.id = i) = none := by
  apply List.find?_eq_none.mpr
  intro x hx
  simp [h x hx]

theorem fresh_id_not_mem {s : Store} (hw : WF s) : s.nextId ∉ ids s := by
  intro hmem
  rcases List.mem_map.mp hmem with ⟨x, hx, hxid⟩
  exact absurd hxid (Nat.ne_of_lt (hw.2 x hx))

/-- C1: for every create request whose name is present and non-empty, the
service persists exactly one new Item with a freshly assigned id, returns
201 Created with the full representation including that id (equal to the
persisted row's id), and the stored count increments by exactly 1. -/
theorem create_valid_contract (s : Store) (n : String) (d : Option String)
    (hw : WF s) (hn : n ≠ "") :
    (create s (some n) d).1.status = 201 ∧
    (create s (some n) d).1.body = Body.item ⟨s.nextId, n, d⟩ ∧
    (⟨s.nextId, n, d⟩ : Item) ∈ (create s (some n) d).2.items ∧
    s.nextId ∉ ids s ∧
    (create s (some n) d).2.items.length = s.items.length + 1 := by
  refine ⟨?_, ?_, ?_, fresh_id_not_mem hw, ?_⟩ <;> simp [create, hn]

/-- Witness for C1 at a concrete input. -/
theorem create_valid_contract_witness :
    (create initStore (some "mock item") (some "mock description")).1.status = 201 ∧
    (create initStore (some "mock item") (some "mock description")).1.body
      = Body.item ⟨initStore.nextId, "mock item", some "mock description"⟩ ∧
    (⟨initStore.nextId, "mock item", some "mock description"⟩ : Item)
      ∈ (create initStore (some "mock item") (some "mock description")).2.items ∧
    initStore.nextId ∉ ids initStore ∧
    (create initStore (some "mock item") (some "mock description")).2.items.length
      = initStore.items.length + 1 :=
  create_valid_contract initStore "mock item" (some "mock description")
    ⟨by simp [ids, initStore], by simp [initStore]⟩ (by decide)

/-- C2: for every create request with a missing or empty name, the service
returns 400 with field-level errors and the stored Items are unchanged. -/
theorem create_invalid_contract (s : Store) (name d : Option String)
    (h : name = none ∨ name = some "") :
    (create s name d).1.status = 400 ∧
    (create s name d).1.body = Body.fieldErrors [nameField] ∧
    (create s name d).2 = s := by
  rcases h with h | h <;> subst h <;> simp [create]

/-- Witness for C2 at a concrete input. -/
theorem create_invalid_contract_witness :
    (create initStore none none).1.status = 400 ∧
    (create initStore none none).1.body = Body.fieldErrors [nameField] ∧
    (create initStore none none).2 = initStore :=
  create_invalid_contract initStore none none (Or.inl rfl)

/-- C3: for every id not currently present in storage, each of retrieve,
replace, and delete returns 404 Not Found and leaves the stored Items
unchanged. -/
theorem unknown_id_contract (s : Store) (i : Nat) (n d : Option String)
    (h : ∀ it ∈ s.items, it.id ≠ i) :
    retrieve s i = (⟨404, Body.empty⟩, s) ∧
    replace s i n d = (⟨404, Body.empty⟩, s) ∧
    deleteItem s i = (⟨404, Body.empty⟩, s) := by
  have hf := find?_id_eq_none h
  have ha : s.items.any (fun it => it.id = i) = false := by
    simp only [List.any_eq_false]
    intro x hx
    simp [h x hx]
  exact ⟨by simp [retrieve, hf], by simp [replace, hf], by simp [deleteItem, ha]⟩

/-- Witness for C3 at a concrete input. -/
theorem unknown_id_contract_witness :
    retrieve initStore 1000 = (⟨404, Body.empty⟩, initStore) ∧
    replace initStore 1000 (some "a") none = (⟨404, Body.empty⟩, initStore) ∧
    deleteItem initStore 1000 = (⟨404, Body.empty⟩, initStore) :=
  unknown_id_contract initStore 1000 (some "a") none (by simp [initStore])

theorem createMany_length (s : Store) (ps : List (String × Option String))
    (h : ∀ p ∈ ps, p.1 ≠ "") :
    (createMany s ps).items.length = s.items.length + ps.length := by
  induction ps generalizing s with
  | nil => simp [createMany]
  | cons p ps ih =>
    have hp : p.1 ≠ "" := h p (by simp)
    have hrest : ∀ q ∈ ps, q.1 ≠ "" := fun q hq => h q (by simp [hq])
    have := ih (create s (some p.1) p.2).2 hrest
    simp only [createMany] at *
    rw [this]
    simp [create, hp]
    omega

/-- C4: list always returns 200 OK with an ordered sequence containing one
representation per persisted Item, in storage order; listing after creating
N items returns exactly N representations. -/
theorem list_contract (s : Store) (ps : List (String × Option String))
    (h : ∀ p ∈ ps, p.1 ≠ "") :
    (listItems s).1.status = 200 ∧
    (listItems s).1.body = Body.items s.items ∧
    (listItems s).2 = s ∧
    (listItems (createMany s ps)).1.body = Body.items (createMany s ps).items ∧
    (createMany s ps).items.length = s.items.length + ps.length :=
  ⟨rfl, rfl, rfl, rfl, createMany_length s ps h⟩

/-- Witness for C4 at a concrete input. -/
theorem list_contract_witness :
    (listItems initStore).1.status = 200 ∧
    (listItems initStore).1.body = Body.items initStore.items ∧
    (listItems initStore).2 = initStore ∧
    (listItems (createMany initStore [("a", none), ("b", none)])).1.body
      = Body.items (createMany initStore [("a", none), ("b", none)]).items ∧
    (createMany initStore [("a", none), ("b", none)]).items.length
      = initStore.items.length + ([("a", none), ("b", none)] : List (String × Option String)).length :=
  list_contract initStore [("a", none), ("b", none)] (by simp)

/-- C7: retrieving a just-created item's id returns 200 OK with a
representation whose name and description equal the input values. -/
theorem create_then_retrieve_contract (s : Store) (n : String) (d : Option String)
    (hw : WF s) (hn : n ≠ "") :
    retrieve (create s (some n) d).2 s.nextId
      = (⟨200, Body.item ⟨s.nextId, n, d⟩⟩, (create s (some n) d).2) := by
  have hnone : s.items.find? (fun it => it.id = s.nextId) = none :=
    find?_id_eq_none (fun it hit => Nat.ne_of_lt (hw.2 it hit))
  simp [create, hn, retrieve, List.find?_append, hnone]

/-- Witness for C7 at a concrete input. -/
theorem create_then_retrieve_contract_witness :
    retrieve (create initStore (some "mock") (some "desc")).2 initStore.nextId
      = (⟨200, Body.item ⟨initStore.nextId, "mock", some "desc"⟩⟩,
         (create initStore (some "mock") (some "desc")).2) :=
  create_then_retrieve_contract initStore "mock" (some "desc")
    ⟨by simp [ids, initStore], by simp [initStore]⟩ (by decide)

/-- C5: replacing an existing item with valid input overwrites all its
fields and returns 200 OK with the updated representation, while every
other persisted Item is unchanged. -/
theorem replace_valid_contract (s : Store) (i : Nat) (n : String) (d : Option String)
    (hex : ∃ x ∈ s.items, x.id = i) (hn : n ≠ "") :
    (replace s i (some n) d).1.status = 200 ∧
    (replace s i (some n) d).1.body = Body.item ⟨i, n, d⟩ ∧
    (⟨i, n, d⟩ : Item) ∈ (replace s i (some n) d).2.items ∧
    (replace s i (some n) d).2.items.length = s.items.length ∧
    (∀ it ∈ s.items, it.id ≠ i → it ∈ (replace s i (some n) d).2.items) ∧
    (∀ it ∈ (replace s i (some n) d).2.items, it.id ≠ i → it ∈ s.items) := by
  obtain ⟨x, hx, hxi⟩ := hex
  have hsome : (s.items.find? (fun it => it.id = i)).isSome :=
    List.find?_isSome.mpr ⟨x, hx, by simp [hxi]⟩
  obtain ⟨old, hold⟩ := Option.isSome_iff_exists.mp hsome
  have holdid : old.id = i := by simpa using List.find?_some hold
  have heq : replace s i (some n) d
      = (⟨200, Body.item ⟨old.id, n, d⟩⟩,
         ⟨s.items.map (fun it => if it.id = i then ⟨it.id, n, d⟩ else it),
          s.nextId⟩) := by
    simp [replace, hold, hn]
  refine ⟨by rw [heq], by rw [heq, holdid], ?_, by rw [heq]; simp, ?_, ?_⟩
  · rw [heq]
    exact List.mem_map.mpr ⟨x, hx, by simp [hxi]⟩
  · intro it hit hne
    rw [heq]
    exact List.mem_map.mpr ⟨it, hit, by simp [hne]⟩
  · intro it hit hne
    rw [heq] at hit
    obtain ⟨a, ha, hfa⟩ := List.mem_map.mp hit
    by_cases hai : a.id = i
    · subst hfa
      simp [hai] at hne
    · subst hfa
      simpa [hai] using ha

/-- Witness for C5 at a concrete input. -/
theorem replace_valid_contract_witness :
    (replace (Store.mk [⟨1, "old", none⟩] 2) 1 (some "new") (some "nd")).1.status = 200 ∧
    (replace (Store.mk [⟨1, "old", none⟩] 2) 1 (some "new") (some "nd")).1.body
      = Body.item ⟨1, "new", some "nd"⟩ ∧
    (⟨1, "new", some "nd"⟩ : Item)
      ∈ (replace (Store.mk [⟨1, "old", none⟩] 2) 1 (some "new") (some "nd")).2.items ∧
    (replace (Store.mk [⟨1, "old", none⟩] 2) 1 (some "new") (some "nd")).2.items.length
      = (Store.mk [⟨1, "old", none⟩] 2).items.length ∧
    (∀ it ∈ (Store.mk [⟨1, "old", none⟩] 2).items, it.id ≠ 1 →
      it ∈ (replace (Store.mk [⟨1, "old", none⟩] 2) 1 (some "new") (some "nd")).2.items) ∧
    (∀ it ∈ (replace (Store.mk [⟨1, "old", none⟩] 2) 1 (some "new") (some "nd")).2.items,
      it.id ≠ 1 → it ∈ (Store.mk [⟨1, "old", none⟩] 2).items) :=
  replace_valid_contract (Store.mk [⟨1, "old", none⟩] 2) 1 "new" (some "nd")
    ⟨⟨1, "old", none⟩, by simp, rfl⟩ (by decide)

theorem filter_ne_id_length {l : List Item} {i : Nat}
    (hnd : (l.map Item.id).Nodup) (hex : ∃ x ∈ l, x.id = i) :
    (l.filter (fun it => it.id ≠ i)).length + 1 = l.length := by
  induction l with
  | nil => simp at hex
  | cons a l ih =>
    rw [List.map_cons, List.nodup_cons] at hnd
    by_cases hai : a.id = i
    · have hall : ∀ x ∈ l, x.id ≠ i := by
        intro x hx hxi
        exact hnd.1 (List.mem_map.mpr ⟨x, hx, hxi.trans hai.symm⟩)
      have hself : l.filter (fun it => it.id ≠ i) = l :=
        List.filter_eq_self.mpr (fun x hx => by simp [hall x hx])
      simp [List.filter_cons, hai, hself]
      exact hall
    · obtain ⟨x, hx, hxi⟩ := hex
      rcases List.mem_cons.mp hx with rfl | hx
      · exact absurd hxi hai
      · have hrec := ih hnd.2 ⟨x, hx, hxi⟩
        simp [List.filter_cons, hai] at hrec ⊢
        omega

/-- C6: deleting an existing item returns 204 No Content with an empty
body, removes exactly that Item (stored count decrements by exactly 1),
and a subsequent retrieve of that id returns 404. -/
theorem delete_contract (s : Store) (i : Nat)
    (hw : WF s) (hex : ∃ x ∈ s.items, x.id = i) :
    (deleteItem s i).1 = ⟨204, Body.empty⟩ ∧
    (deleteItem s i).2.items.length + 1 = s.items.length ∧
    (∀ it ∈ (deleteItem s i).2.items, it.id ≠ i) ∧
    (∀ it ∈ s.items, it.id ≠ i → it ∈ (deleteItem s i).2.items) ∧
    (retrieve (deleteItem s i).2 i).1 = ⟨404, Body.empty⟩ := by
  obtain ⟨x, hx, hxi⟩ := hex
  have hany : s.items.any (fun it => it.id = i) = true :=
    List.any_eq_true.mpr ⟨x, hx, by simp [hxi]⟩
  have heq : deleteItem s i
      = (⟨204, Body.empty⟩, ⟨s.items.filter (fun it => it.id ≠ i), s.nextId⟩) := by
    simp [deleteItem, hany]
  have hmem : ∀ it ∈ (deleteItem s i).2.items, it.id ≠ i := by
    intro it hit
    rw [heq] at hit
    simpa using (List.mem_filter.mp hit).2
  refine ⟨by rw [heq], ?_, hmem, ?_, ?_⟩
  · rw [heq]
    exact filter_ne_id_length hw.1 ⟨x, hx, hxi⟩
  · intro it hit hne
    rw [heq]
    exact List.mem_filter.mpr ⟨hit, by simp [hne]⟩
  · have hf : (deleteItem s i).2.items.find? (fun it => it.id = i) = none :=
      find?_id_eq_none hmem
    simp [retrieve, hf]

/-- Witness for C6 at a concrete input. -/
theorem delete_contract_witness :
    (deleteItem (Store.mk [⟨1, "a", none⟩] 2) 1).1 = ⟨204, Body.empty⟩ ∧
    (deleteItem (Store.mk [⟨1, "a", none⟩] 2) 1).2.items.length + 1
      = (Store.mk [⟨1, "a", none⟩] 2).items.length ∧
    (∀ it ∈ (deleteItem (Store.mk [⟨1, "a", none⟩] 2) 1).2.items, it.id ≠ 1) ∧
    (∀ it ∈ (Store.mk [⟨1, "a", none⟩] 2).items, it.id ≠ 1 →
      it ∈ (deleteItem (Store.mk [⟨1, "a", none⟩] 2) 1).2.items) ∧
    (retrieve (deleteItem (Store.mk [⟨1, "a", none⟩] 2) 1).2 1).1 = ⟨404, Body.empty⟩ :=
  delete_contract (Store.mk [⟨1, "a", none⟩] 2) 1
    ⟨by simp [ids], by simp⟩ ⟨⟨1, "a", none⟩, by simp, rfl⟩

theorem retrieve_store_eq (s : Store) (i : Nat) : (retrieve s i).2 = s := by
  unfold retrieve
  cases s.items.find? (fun it => it.id = i) <;> rfl

theorem replace_store_spec (s : Store) (i : Nat) (n d : Option String) :
    (replace s i n d).2.nextId = s.nextId ∧
    ∀ it ∈ (replace s i n d).2.items, ∃ x ∈ s.items, it.id = x.id := by
  cases hfind : s.items.find? (fun it => it.id = i) with
  | none =>
    have heq : replace s i n d = (⟨404, Body.empty⟩, s) := by
      simp [replace, hfind]
    rw [heq]
    exact ⟨rfl, fun it hit => ⟨it, hit, rfl⟩⟩
  | some old =>
    cases n with
    | none =>
      have heq : replace s i none d = (⟨400, Body.fieldErrors [nameField]⟩, s) := by
        simp [replace, hfind]
      rw [heq]
      exact ⟨rfl, fun it hit => ⟨it, hit, rfl⟩⟩
    | some nm =>
      by_cases h : nm = ""
      · have heq : replace s i (some nm) d
            = (⟨400, Body.fieldErrors [nameField]⟩, s) := by
          simp [replace, hfind, h]
        rw [heq]
        exact ⟨rfl, fun it hit => ⟨it, hit, rfl⟩⟩
      · have heq : (replace s i (some nm) d).2
            = ⟨s.items.map (fun it => if it.id = i then ⟨it.id, nm, d⟩ else it),
               s.nextId⟩ := by
          simp [replace, hfind, h]
        rw [heq]
        refine ⟨rfl, ?_⟩
        intro it hit
        simp at hit
        obtain ⟨a, ha, hfa⟩ := hit
        refine ⟨a, ha, ?_⟩
        by_cases hai : a.id = i <;> simp [hai] at hfa <;> simp [← hfa, hai]

theorem ids_replace (s : Store) (i : Nat) (n d : Option String) :
    ids (replace s i n d).2 = ids s := by
  cases hfind : s.items.find? (fun it => it.id = i) with
  | none => simp [replace, hfind]
  | some old =>
    cases n with
    | none => simp [replace, hfind]
    | some nm =>
      by_cases h : nm = ""
      · simp [replace, hfind, h]
      · have heq : (replace s i (some nm) d).2
            = ⟨s.items.map (fun it => if it.id = i then ⟨it.id, nm, d⟩ else it),
               s.nextId⟩ := by
          simp [replace, hfind, h]
        rw [heq]
        simp only [ids, List.map_map]
        simp
        intro a _
        by_cases hai : a.id = i <;> simp [hai]

theorem WF_create (s : Store) (n d : Option String) (hw : WF s) :
    WF (create s n d).2 := by
  have hfresh := fresh_id_not_mem hw
  match n with
  | none => simpa [create] using hw
  | some nm =>
    by_cases h : nm = ""
    · simpa [create, h] using hw
    · refine ⟨?_, ?_⟩
      · have hids : ids (create s (some nm) d).2 = ids s ++ [s.nextId] := by
          simp [create, h, ids]
        rw [hids, List.nodup_append]
        refine ⟨hw.1, List.nodup_singleton _, ?_⟩
        intro a hha hmem
        simp at hmem
        exact hfresh (hmem ▸ hha)
      · intro it hit
        simp [create, h] at hit ⊢
        rcases hit with hit | rfl
        · exact Nat.lt_succ_of_lt (hw.2 it hit)
        · exact Nat.lt_succ_self _

theorem WF_replace (s : Store) (i : Nat) (n d : Option String) (hw : WF s) :
    WF (replace s i n d).2 := by
  obtain ⟨hnext, hmem⟩ := replace_store_spec s i n d
  refine ⟨?_, ?_⟩
  · rw [ids_replace]
    exact hw.1
  · intro it hit
    obtain ⟨x, hx, hxid⟩ := hmem it hit
    rw [hnext, hxid]
    exact hw.2 x hx

theorem WF_delete (s : Store) (i : Nat) (hw : WF s) :
    WF (deleteItem s i).2 := by
  unfold deleteItem
  by_cases h : s.items.any (fun it => it.id = i) = true
  · rw [if_pos h]
    refine ⟨?_, ?_⟩
    · have hsub : List.Sublist
          ((s.items.filter (fun it => it.id ≠ i)).map Item.id)
          (s.items.map Item.id) :=
        (List.filter_sublist _).map _
      exact List.Nodup.sublist hsub hw.1
    · intro it hit
      exact hw.2 it (List.mem_of_mem_filter hit)
  · rw [if_neg h]
    exact hw

theorem WF_handle (s : Store) (op : Op) (auth : Bool) (hw : WF s) :
    WF (handle s op auth).2 := by
  cases auth with
  | false => simpa [handle] using hw
  | true =>
    cases op with
    | list => simpa [handle, applyOp, listItems] using hw
    | create n d => simpa [handle, applyOp] using WF_create s n d hw
    | retrieve i =>
      have := retrieve_store_eq s i
      simp only [handle, applyOp, if_pos]
      simpa [this] using hw
    | replace i n d => simpa [handle, applyOp] using WF_replace s i n d hw
    | delete i => simpa [handle, applyOp] using WF_delete s i hw

theorem WF_initStore : WF initStore :=
  ⟨List.nodup_nil, by simp [initStore]⟩

theorem WF_reachable {s : Store} (h : Reachable s) : WF s := by
  induction h with
  | init => exact WF_initStore
  | step s op auth _ ih => exact WF_handle s op auth ih

/-- C8: in every reachable storage state every persisted Item has a unique
id; ids are immutable and system-assigned: replace never changes any stored
id, and after any operation every stored id is either an id that already
existed or the freshly assigned key. -/
theorem ids_unique_immutable (s : Store) (hs : Reachable s) :
    (ids s).Nodup ∧
    (∀ i n d, ids (replace s i n d).2 = ids s) ∧
    (∀ op auth, ∀ it ∈ (handle s op auth).2.items,
      it.id ∈ ids s ∨ it.id = s.nextId) := by
  have hw := WF_reachable hs
  refine ⟨hw.1, fun i n d => ids_replace s i n d, ?_⟩
  have hold : ∀ it ∈ s.items, it.id ∈ ids s :=
    fun it hit => List.mem_map.mpr ⟨it, hit, rfl⟩
  intro op auth it hit
  cases auth with
  | false =>
    simp only [handle, if_neg, Bool.false_eq_true, not_false_iff, if_false] at hit
    exact Or.inl (hold it hit)
  | true =>
    cases op with
    | list =>
      simp only [handle, applyOp, listItems, if_pos] at hit
      exact Or.inl (hold it hit)
    | create n d =>
      simp only [handle, if_pos, applyOp] at hit
      match n with
      | none => exact Or.inl (hold it (by simpa [create] using hit))
      | some nm =>
        by_cases h : nm = ""
        · exact Or.inl (hold it (by simpa [create, h] using hit))
        · simp [create, h] at hit
          rcases hit with hit | rfl
          · exact Or.inl (hold it hit)
          · exact Or.inr rfl
    | retrieve i =>
      rw [show (handle s (Op.retrieve i) true).2 = (retrieve s i).2 from rfl,
        retrieve_store_eq] at hit
      exact Or.inl (hold it hit)
    | replace i n d =>
      have := (replace_store_spec s i n d).2 it
        (by simpa [handle, applyOp] using hit)
      obtain ⟨x, hx, hxid⟩ := this
      exact Or.inl (hxid ▸ hold x hx)
    | delete i =>
      simp only [handle, if_pos, applyOp] at hit
      unfold deleteItem at hit
      by_cases h : s.items.any (fun a => a.id = i) = true
      · simp only [h, if_pos] at hit
        exact Or.inl (hold it (List.mem_of_mem_filter hit))
      · simp only [h] at hit
        simp at hit
        exact Or.inl (hold it hit)

/-- Witness for C8 at a concrete reachable store. -/
theorem ids_unique_immutable_witness :
    (ids initStore).Nodup ∧
    (∀ i n d, ids (replace initStore i n d).2 = ids initStore) ∧
    (∀ op auth, ∀ it ∈ (handle initStore op auth).2.items,
      it.id ∈ ids initStore ∨ it.id = initStore.nextId) :=
  ids_unique_immutable initStore Reachable.init

/-- C9: every operation requires an authenticated caller: a request without
valid credentials yields 401 or 403 and does not perform the operation. -/
theorem unauthenticated_contract (s : Store) (op : Op) :
    ((handle s op false).1.status = 401 ∨ (handle s op false).1.status = 403) ∧
    (handle s op false).2 = s :=
  ⟨Or.inl rfl, rfl⟩

end ItemService

namespace MyApp

/-- C10: for every request, the todos view reads all TodoItem records and
renders the todos.html template with context key todos bound to exactly
the collection of all persisted TodoItems, performing no writes. -/
theorem todos_contract (db : List TodoItem) :
    (todos db).1.template = "todos.html" ∧
    (todos db).1.context_todos = db ∧
    (todos db).2 = db :=
  ⟨rfl, rfl, rfl⟩

end MyApp
